import Mathlib

/-!
Shallow embedding of the TopoModelX sources under verification:
`topomodelx/nn/simplicial/dist2cycle_layer.py` (the `Dist2CycleLayer` class)
and the DHGCN hypergraph model exercised by `test/nn/hypergraph/test_dhgcn.py`.

Tensors are modelled as dense 2-D matrices of integer scalars (exact
arithmetic standing in for the backend's machine reals; every property
verified here is generic in the scalars) carrying their shape explicitly;
elementwise multiplication follows the backend's broadcasting rule
for two 2-D operands (a dimension pair is compatible when equal or when one
side is 1).  Fallible tensor operations return `Except TErr Tensor`, where the
error value records the operation that raised it and the offending shapes, so
that error propagation can be stated exactly.
-/

namespace TopoModelX

/-- A dense 2-D tensor of scalars with its shape stored explicitly.
`data` is a row-major list of rows; well-formed tensors satisfy `Tensor.wf`. -/
structure Tensor where
  rows : ℕ
  cols : ℕ
  data : List (List ℤ)
deriving DecidableEq

/-- Well-formedness: the row list matches the declared shape. -/
def Tensor.wf (t : Tensor) : Prop :=
  t.data.length = t.rows ∧ ∀ r ∈ t.data, r.length = t.cols

/-- Entry read with out-of-range defaulting to 0 (never exercised on
well-formed tensors and in-range indices). -/
def Tensor.get (t : Tensor) (i j : ℕ) : ℤ :=
  (t.data.getD i []).getD j 0

/-- Build the `m × n` tensor whose `(i, j)` entry is `f i j`. -/
def mkTensor (m n : ℕ) (f : ℕ → ℕ → ℤ) : Tensor :=
  ⟨m, n, (List.range m).map fun i => (List.range n).map fun j => f i j⟩

/-- Structured runtime errors of the tensor operations, mirroring the shape
errors the numerical backend raises at the offending operation. -/
inductive TErr where
  /-- Elementwise-product operands with incompatible (non-broadcastable)
  shapes, recording both operand shapes. -/
  | mulShape (ar ac br bc : ℕ) : TErr
  /-- Linear-projection input whose trailing dimension differs from the
  layer's `in_features`. -/
  | linShape (inCols channels : ℕ) : TErr
  /-- Aggregation of an empty or shape-mismatched collection. -/
  | aggShape : TErr
  /-- Input violating the hypergraph model's documented input contract. -/
  | contractShape (shape : List ℕ) : TErr
deriving DecidableEq

instance instDecEqExcept {ε α : Type} [DecidableEq ε] [DecidableEq α] :
    DecidableEq (Except ε α) := fun x y =>
  match x, y with
  | .ok a, .ok b =>
    if h : a = b then .isTrue (congrArg Except.ok h)
    else .isFalse fun hc => h (Except.ok.inj hc)
  | .error a, .error b =>
    if h : a = b then .isTrue (congrArg Except.error h)
    else .isFalse fun hc => h (Except.error.inj hc)
  | .ok _, .error _ => .isFalse fun hc => Except.noConfusion hc
  | .error _, .ok _ => .isFalse fun hc => Except.noConfusion hc

/-- Broadcast one dimension pair: equal sizes, or one side of size 1. -/
def broadcastDim (a b : ℕ) : Option ℕ :=
  if a = b then some a
  else if a = 1 then some b
  else if b = 1 then some a
  else none

/-- Entry read under broadcasting: a size-1 dimension repeats its only index. -/
def bget (t : Tensor) (i j : ℕ) : ℤ :=
  t.get (if t.rows = 1 then 0 else i) (if t.cols = 1 then 0 else j)

/-- Elementwise (Hadamard) product `a * b` of two 2-D tensors with
broadcasting, as performed by line 64 of the layer (`adjacency * Linv`).
Incompatible shapes raise at this operation. -/
def elemMul (a b : Tensor) : Except TErr Tensor :=
  match broadcastDim a.rows b.rows, broadcastDim a.cols b.cols with
  | some m, some n => .ok (mkTensor m n fun i j => bget a i j * bget b i j)
  | _, _ => .error (.mulShape a.rows a.cols b.rows b.cols)

/-- Pointwise rectified linear unit: negative entries clamp to 0. -/
def reluT (t : Tensor) : Tensor :=
  mkTensor t.rows t.cols fun i j => max (t.get i j) 0

/-- Elementwise sum of two tensors of identical shape. -/
def elemAdd (a b : Tensor) : Option Tensor :=
  if a.rows = b.rows ∧ a.cols = b.cols then
    some (mkTensor a.rows a.cols fun i j => a.get i j + b.get i j)
  else none

/-- Sum of a collection of same-shaped tensors; empty collections and shape
mismatches yield `none`. -/
def sumTensors : List Tensor → Option Tensor
  | [] => none
  | t :: ts => ts.foldlM elemAdd t

/-- Modelled from the spec: `topomodelx.base.aggregation.Aggregation` with
`aggr_func="sum"` and `update_func="relu"` (the file
`topomodelx/base/aggregation.py` is imported by the layer but is not among the
sources).  Per the spec it accepts an ordered collection of tensors of
identical shape, combines them by elementwise summation, and passes the result
through the rectified-linear nonlinearity. -/
def aggregationSumRelu (xs : List Tensor) : Option Tensor :=
  (sumTensors xs).map reluT

/-- The layer's learnable state: `channels` and the parameters of
`fc_neigh = nn.Linear(channels, 1, bias=True)` — a weight of shape
`(1, channels)` (stored as one row) and a scalar bias. -/
structure Dist2CycleLayer where
  channels : ℕ
  weight : List ℤ
  bias : ℤ
deriving DecidableEq

/-- Application of `fc_neigh` to a 2-D input: requires the trailing dimension
to equal `channels` (`in_features`), otherwise raises a shape error at this
operation; on success returns `x · Wᵀ + b` of shape `(x.rows, 1)`. -/
def linearForward (l : Dist2CycleLayer) (x : Tensor) : Except TErr Tensor :=
  if x.cols = l.channels then
    .ok (mkTensor x.rows 1 fun i _ =>
      ((List.range l.channels).foldl (fun s j => s + x.get i j * l.weight.getD j 0) 0)
        + l.bias)
  else .error (.linShape x.cols l.channels)

/-- `Dist2CycleLayer.forward(x_e, Linv, adjacency)`, translated line by line:
`x_e = adjacency * Linv` (the parameter `x_e` is rebound before any read),
`x_e = self.aggr_on_edges([x_e])`, `rst = self.fc_neigh(x_e)`, `return rst`. -/
def Dist2CycleLayer.forward (l : Dist2CycleLayer) (x_e Linv adjacency : Tensor) :
    Except TErr Tensor :=
  match elemMul adjacency Linv with
  | .error e => .error e
  | .ok xe =>
    match aggregationSumRelu [xe] with
    | none => .error TErr.aggShape
    | some xe2 => linearForward l xe2

/-- The same computation with the unused `x_e` argument dropped: forward's
observable behaviour as a function of `Linv`, `adjacency` and parameters. -/
def dist2cycleOutput (l : Dist2CycleLayer) (Linv adjacency : Tensor) :
    Except TErr Tensor :=
  match elemMul adjacency Linv with
  | .error e => .error e
  | .ok xe =>
    match aggregationSumRelu [xe] with
    | none => .error TErr.aggShape
    | some xe2 => linearForward l xe2

/-- Reference composition stated by the spec: the elementwise product
`adjacency * Linv`, then the sum-plus-rectified-linear aggregation collapsed
on a singleton collection to `relu`, then the learned projection `fc_neigh`. -/
def forwardSpecRef (l : Dist2CycleLayer) (Linv adjacency : Tensor) :
    Except TErr Tensor :=
  match elemMul adjacency Linv with
  | .error e => .error e
  | .ok m => linearForward l (reluT m)

/-- The local state of one `forward` invocation: the layer (`self`), the three
arguments, and the result slot, for stating frame conditions per statement. -/
structure ForwardEnv where
  selfLayer : Dist2CycleLayer
  x_e : Tensor
  Linv : Tensor
  adjacency : Tensor
  rst : Option Tensor
deriving DecidableEq

/-- Statement-level execution of the body of `forward` on an environment:
line 64 rebinds `x_e`, line 65 rebinds it again, line 66 binds `rst`; any
raised error aborts the call with the environment unchanged. -/
def forwardStep (env : ForwardEnv) : Except TErr ForwardEnv :=
  match elemMul env.adjacency env.Linv with
  | .error e => .error e
  | .ok v1 =>
    match aggregationSumRelu [v1] with
    | none => .error TErr.aggShape
    | some v2 =>
      match linearForward env.selfLayer v2 with
      | .error e => .error e
      | .ok v3 => .ok { env with x_e := v2, rst := some v3 }

/-- Model of `Dist2CycleLayer.reset_parameters`: the backend's random draws
are passed in explicitly.  `self.fc_neigh.reset_parameters()` default-
initializes weight and bias; `nn.init.kaiming_uniform_(self.fc_neigh.weight,
a=0.0, nonlinearity="relu")` then overwrites the weight in place with fresh
uniform draws from `[-bound, bound]` where `bound = √3 · gain / √fan_in` and
`gain = √2` (the rectified-linear gain), with `fan_in = channels`.  The bias
keeps its default initialization, a uniform draw from
`[-1/√fan_in, 1/√fan_in]`.  `wdraws` are the in-place weight draws (one per
weight entry) and `bdraw` the bias draw. -/
def Dist2CycleLayer.resetParameters (l : Dist2CycleLayer)
    (wdraws : List ℤ) (bdraw : ℤ) : Dist2CycleLayer :=
  { l with weight := wdraws, bias := bdraw }

/-- An n-dimensional dense tensor: its shape (list of dimension sizes, empty
for a 0-dimensional scalar) and its entries in row-major order. -/
structure NDTensor where
  shape : List ℕ
  entries : List ℤ
deriving DecidableEq

/-- Modelled from the spec: the DHGCN hypergraph model of
`topomodelx/nn/hypergraph/dhgcn.py`, which is not among the sources (only its
test is).  Spec §4.4 and §6 give its black-box contract: constructed from a
channel width `channels_node` and a layer count `n_layers`. -/
structure DHGCN where
  channels_node : ℕ
  n_layers : ℕ
deriving DecidableEq

/-- Modelled from the spec: `DHGCN.forward` accepts a 2-D node-feature tensor
of shape `(n_nodes, channels_node)` and returns a 0-dimensional tensor — a
single value produced by a global reduction over the stacked layers' output
(the internal layer computation is out of spec; the reduction is modelled as
the global sum).  Inputs violating the documented shape contract fail. -/
def DHGCN.forward (m : DHGCN) (x : NDTensor) : Except TErr NDTensor :=
  match x.shape with
  | [_n, c] =>
    if c = m.channels_node then .ok ⟨[], [x.entries.sum]⟩
    else .error (.contractShape x.shape)
  | s => .error (.contractShape s)

/-! Helper lemmas shared by the claim theorems. -/

theorem agg_singleton (t : Tensor) : aggregationSumRelu [t] = some (reluT t) := rfl

theorem broadcastDim_self (n : ℕ) : broadcastDim n n = some n := by
  simp [broadcastDim]

theorem broadcastDim_one_right (n : ℕ) : broadcastDim n 1 = some n := by
  by_cases h : n = 1 <;> simp [broadcastDim, h]

theorem mkTensor_rows (m n : ℕ) (f : ℕ → ℕ → ℤ) : (mkTensor m n f).rows = m := rfl

theorem mkTensor_cols (m n : ℕ) (f : ℕ → ℕ → ℤ) : (mkTensor m n f).cols = n := rfl

theorem reluT_rows (t : Tensor) : (reluT t).rows = t.rows := rfl

theorem reluT_cols (t : Tensor) : (reluT t).cols = t.cols := rfl

theorem elemMul_ok_shape {a b m : Tensor} (h : elemMul a b = .ok m) :
    broadcastDim a.rows b.rows = some m.rows ∧
    broadcastDim a.cols b.cols = some m.cols := by
  unfold elemMul at h
  cases h1 : broadcastDim a.rows b.rows <;> cases h2 : broadcastDim a.cols b.cols <;>
    rw [h1, h2] at h <;> simp at h
  subst h
  simp [h1, h2, mkTensor_rows, mkTensor_cols]

theorem linearForward_ok_shape {l : Dist2CycleLayer} {x t : Tensor}
    (h : linearForward l x = .ok t) :
    t.rows = x.rows ∧ t.cols = 1 ∧ x.cols = l.channels := by
  unfold linearForward at h
  by_cases hc : x.cols = l.channels
  · rw [if_pos hc] at h
    simp at h
    subst h
    exact ⟨rfl, rfl, hc⟩
  · rw [if_neg hc] at h
    simp at h

theorem linearForward_err {l : Dist2CycleLayer} {x : Tensor}
    (hc : x.cols ≠ l.channels) :
    linearForward l x = .error (.linShape x.cols l.channels) := by
  unfold linearForward
  rw [if_neg hc]

theorem forward_eq_relu_chain (l : Dist2CycleLayer) (x Linv adjacency : Tensor) :
    l.forward x Linv adjacency = forwardSpecRef l Linv adjacency := by
  unfold Dist2CycleLayer.forward forwardSpecRef
  cases h : elemMul adjacency Linv with
  | error e => rfl
  | ok m => simp [agg_singleton]

/-! Claim theorems. -/

/-- C1: for every two edge-feature tensors `x_e` and `x_e'` and fixed `Linv`,
`adjacency` and parameter state, `Dist2CycleLayer.forward` returns the same
result on both: the input `x_e` is rebound to the adjacency/Linv product
before any use, so the original edge-feature values never influence the
output. -/
theorem c1_forward_independent_of_x_e
    (l : Dist2CycleLayer) (x x' Linv adjacency : Tensor) :
    l.forward x Linv adjacency = l.forward x' Linv adjacency := rfl

/-- C2: on every input triple, `Dist2CycleLayer.forward` equals the reference
composition of the spec: the elementwise product `adjacency * Linv`, passed
through the sum-then-rectified-linear aggregation — which on the singleton
collection `[adjacency * Linv]` is exactly `relu` with shape unchanged — and
then through the learned projection `fc_neigh`; in particular they agree on
every input on which `forward` returns. -/
theorem c2_forward_matches_reference
    (l : Dist2CycleLayer) (x Linv adjacency : Tensor) :
    l.forward x Linv adjacency = forwardSpecRef l Linv adjacency :=
  forward_eq_relu_chain l x Linv adjacency

/-- C10: `forward` performs no validation of `x_e` at all: for every value of
`x_e`, of any shape (including ill-formed data), the call's outcome — success
with its result, or the exact error — coincides with `dist2cycleOutput`, a
function of only `Linv`, `adjacency` and the layer parameters, in which `x_e`
does not occur. -/
theorem c10_forward_never_reads_x_e
    (l : Dist2CycleLayer) (x Linv adjacency : Tensor) :
    l.forward x Linv adjacency = dist2cycleOutput l Linv adjacency := rfl

/-- C3 counterexample: the claim that the forward result always has shape
`(n_targets, 1)` with `n_targets` equal to adjacency's leading dimension fails
under broadcasting.  With `channels = 1`, adjacency of shape `(1, 1)` and
`Linv` of shape `(2, 1)`, the product broadcasts to `(2, 1)` and `forward`
returns a `(2, 1)` tensor, while adjacency's leading dimension is `1`. -/
theorem c3_counterexample :
    (Dist2CycleLayer.mk 1 [1] 0).forward (Tensor.mk 1 1 [[0]])
        (Tensor.mk 2 1 [[1], [3]]) (Tensor.mk 1 1 [[2]])
      = Except.ok (Tensor.mk 2 1 [[2], [6]]) ∧
    (Tensor.mk 2 1 [[2], [6]]).rows = 2 ∧
    (Tensor.mk 1 1 [[2]]).rows = 1 := by
  decide

/-- C3 (amended): whenever `forward` returns, the result has shape `(n, 1)`
where `n` is the broadcast of the leading dimensions of `adjacency` and
`Linv`; `n` equals adjacency's leading dimension whenever `Linv` has the same
number of rows as `adjacency` or has a single row — but not in general when
adjacency has one row and `Linv` has more. -/
theorem c3_output_shape (l : Dist2CycleLayer) (x Linv adjacency t : Tensor)
    (h : l.forward x Linv adjacency = .ok t) :
    t.cols = 1 ∧
    broadcastDim adjacency.rows Linv.rows = some t.rows ∧
    (Linv.rows = adjacency.rows ∨ Linv.rows = 1 → t.rows = adjacency.rows) := by
  rw [forward_eq_relu_chain] at h
  unfold forwardSpecRef at h
  cases hm : elemMul adjacency Linv with
  | error e => rw [hm] at h; simp at h
  | ok m =>
    rw [hm] at h
    obtain ⟨hrows, hcols, _⟩ := linearForward_ok_shape h
    have hsh := elemMul_ok_shape hm
    have htr : t.rows = m.rows := by rw [hrows, reluT_rows]
    refine ⟨hcols, ?_, ?_⟩
    · rw [htr]; exact hsh.1
    · rintro (heq | hone)
      · rw [heq, broadcastDim_self] at hsh
        rw [htr]
        exact (Option.some_injective _ hsh.1).symm
      · rw [hone, broadcastDim_one_right] at hsh
        rw [htr]
        exact (Option.some_injective _ hsh.1).symm

/-- C3 (amended) witness: on `channels = 2` with equal-shaped `(2, 2)`
adjacency and `Linv`, the forward output has shape `(2, 1)` and its leading
dimension equals adjacency's. -/
theorem c3_output_shape_witness :
    (Tensor.mk 2 1 [[17], [53]]).cols = 1 ∧
    broadcastDim (Tensor.mk 2 2 [[1, 2], [3, 4]]).rows
        (Tensor.mk 2 2 [[5, 6], [7, 8]]).rows
      = some (Tensor.mk 2 1 [[17], [53]]).rows ∧
    ((Tensor.mk 2 2 [[5, 6], [7, 8]]).rows = (Tensor.mk 2 2 [[1, 2], [3, 4]]).rows ∨
        (Tensor.mk 2 2 [[5, 6], [7, 8]]).rows = 1 →
      (Tensor.mk 2 1 [[17], [53]]).rows = (Tensor.mk 2 2 [[1, 2], [3, 4]]).rows) :=
  c3_output_shape (Dist2CycleLayer.mk 2 [1, 1] 0) (Tensor.mk 1 1 [[0]])
    (Tensor.mk 2 2 [[5, 6], [7, 8]]) (Tensor.mk 2 2 [[1, 2], [3, 4]])
    (Tensor.mk 2 1 [[17], [53]]) (by decide)

/-- C7: `forward` raises exactly the shape errors of its constituent tensor
operations, at the offending operation itself, with no ahead-of-time
validation and no local recovery: it returns `Except.error e` precisely when
the elementwise product raises `e`, or the product succeeds and the linear
projection raises `e` on the aggregated (relu-ed) product — the error value
reaching the caller is the offending operation's own, unmodified. -/
theorem c7_shape_error_propagation
    (l : Dist2CycleLayer) (x Linv adjacency : Tensor) (e : TErr) :
    l.forward x Linv adjacency = .error e ↔
      (elemMul adjacency Linv = .error e ∨
        ∃ m, elemMul adjacency Linv = .ok m ∧
          linearForward l (reluT m) = .error e) := by
  rw [forward_eq_relu_chain]
  unfold forwardSpecRef
  cases hm : elemMul adjacency Linv with
  | error e' => simp
  | ok m => simp

/-- C9: `forward` returns normally only if the trailing dimension of the
product `adjacency * Linv` equals `channels` (the `in_features` of
`fc_neigh`) — stated for every input, square or not, in the first conjunct;
in particular for square `(n, n)` adjacency and `Linv` it succeeds exactly
when `n = channels`, and otherwise raises the linear projection's shape
error. -/
theorem c9_success_needs_channels_match
    (l : Dist2CycleLayer) (x Linv adjacency : Tensor) (n : ℕ)
    (har : adjacency.rows = n) (hac : adjacency.cols = n)
    (hlr : Linv.rows = n) (hlc : Linv.cols = n) :
    (∀ (x' Linv' adjacency' t : Tensor), l.forward x' Linv' adjacency' = .ok t →
      ∃ m, elemMul adjacency' Linv' = .ok m ∧ m.cols = l.channels) ∧
    ((∃ t, l.forward x Linv adjacency = .ok t) ↔ n = l.channels) ∧
    (n ≠ l.channels →
      l.forward x Linv adjacency = .error (TErr.linShape n l.channels)) := by
  have hm : elemMul adjacency Linv
      = .ok (mkTensor n n fun i j => bget adjacency i j * bget Linv i j) := by
    unfold elemMul
    rw [har, hac, hlr, hlc, broadcastDim_self]
  have hfwd : l.forward x Linv adjacency
      = linearForward l (reluT (mkTensor n n fun i j =>
          bget adjacency i j * bget Linv i j)) := by
    rw [forward_eq_relu_chain]
    unfold forwardSpecRef
    rw [hm]
  have hcols : (reluT (mkTensor n n fun i j =>
      bget adjacency i j * bget Linv i j)).cols = n := rfl
  refine ⟨?_, ?_, ?_⟩
  · intro x' Linv' adjacency' t ht
    rw [forward_eq_relu_chain] at ht
    unfold forwardSpecRef at ht
    cases hm' : elemMul adjacency' Linv' with
    | error e => rw [hm'] at ht; simp at ht
    | ok m =>
      rw [hm'] at ht
      obtain ⟨_, _, hc⟩ := linearForward_ok_shape ht
      exact ⟨m, rfl, by rw [← reluT_cols]; exact hc⟩
  · constructor
    · rintro ⟨t, ht⟩
      rw [hfwd] at ht
      obtain ⟨_, _, hc⟩ := linearForward_ok_shape ht
      rw [← hcols]
      exact hc
    · intro hn
      rw [hfwd]
      unfold linearForward
      rw [if_pos (hcols.trans hn)]
      exact ⟨_, rfl⟩
  · intro hn
    rw [hfwd, linearForward_err (by rw [hcols]; exact hn), hcols]

/-- C9 witness: with `channels = 2` and square `(2, 2)` inputs, `forward`
succeeds and `2 = channels`; the conjunction holds at this concrete input,
its first conjunct ranging over all (also non-square) inputs. -/
theorem c9_success_needs_channels_match_witness :
    (∀ (x' Linv' adjacency' t : Tensor),
      (Dist2CycleLayer.mk 2 [1, 1] 0).forward x' Linv' adjacency' = .ok t →
      ∃ m, elemMul adjacency' Linv'
          = .ok m ∧ m.cols = (Dist2CycleLayer.mk 2 [1, 1] 0).channels) ∧
    ((∃ t, (Dist2CycleLayer.mk 2 [1, 1] 0).forward (Tensor.mk 1 1 [[0]])
        (Tensor.mk 2 2 [[5, 6], [7, 8]]) (Tensor.mk 2 2 [[1, 2], [3, 4]]) = .ok t) ↔
      2 = (Dist2CycleLayer.mk 2 [1, 1] 0).channels) ∧
    (2 ≠ (Dist2CycleLayer.mk 2 [1, 1] 0).channels →
      (Dist2CycleLayer.mk 2 [1, 1] 0).forward (Tensor.mk 1 1 [[0]])
          (Tensor.mk 2 2 [[5, 6], [7, 8]]) (Tensor.mk 2 2 [[1, 2], [3, 4]])
        = .error (TErr.linShape 2 (Dist2CycleLayer.mk 2 [1, 1] 0).channels)) :=
  c9_success_needs_channels_match (Dist2CycleLayer.mk 2 [1, 1] 0)
    (Tensor.mk 1 1 [[0]]) (Tensor.mk 2 2 [[5, 6], [7, 8]])
    (Tensor.mk 2 2 [[1, 2], [3, 4]]) 2 rfl rfl rfl rfl

/-- C5: the computation is deterministic with no hidden state: if a call of
`forward` on `(x, Linv, adjacency)` completes, then a second successive call
on the identical inputs with the (unchanged) parameter state left by the
first call reproduces the very same final environment — in particular the
same returned result. -/
theorem c5_forward_deterministic
    (l : Dist2CycleLayer) (x Linv adjacency : Tensor) (env' : ForwardEnv)
    (h : forwardStep ⟨l, x, Linv, adjacency, none⟩ = .ok env') :
    forwardStep ⟨env'.selfLayer, x, Linv, adjacency, none⟩ = .ok env' := by
  cases hm : elemMul adjacency Linv with
  | error e => simp [forwardStep, hm] at h
  | ok v1 =>
    cases hl : linearForward l (reluT v1) with
    | error e => simp [forwardStep, hm, agg_singleton, hl] at h
    | ok v3 =>
      simp [forwardStep, hm, agg_singleton, hl] at h
      subst h
      simp [forwardStep, hm, agg_singleton, hl]

/-- C5 witness: a concrete first call completes; the second call on the same
inputs with the parameters it left behind returns the same environment. -/
theorem c5_forward_deterministic_witness :
    forwardStep ⟨ForwardEnv.mk (Dist2CycleLayer.mk 1 [1] 0) (Tensor.mk 1 1 [[9]])
          (Tensor.mk 1 1 [[3]]) (Tensor.mk 1 1 [[2]]) none |>.selfLayer,
        Tensor.mk 1 1 [[9]], Tensor.mk 1 1 [[3]], Tensor.mk 1 1 [[2]], none⟩
      = .ok ⟨Dist2CycleLayer.mk 1 [1] 0, Tensor.mk 1 1 [[6]],
          Tensor.mk 1 1 [[3]], Tensor.mk 1 1 [[2]], some (Tensor.mk 1 1 [[6]])⟩ :=
  c5_forward_deterministic (Dist2CycleLayer.mk 1 [1] 0) (Tensor.mk 1 1 [[9]])
    (Tensor.mk 1 1 [[3]]) (Tensor.mk 1 1 [[2]])
    ⟨Dist2CycleLayer.mk 1 [1] 0, Tensor.mk 1 1 [[6]], Tensor.mk 1 1 [[3]],
      Tensor.mk 1 1 [[2]], some (Tensor.mk 1 1 [[6]])⟩ (by decide)

/-- C6: `forward` has no side effects beyond reading parameter state: a
completed statement-level execution of its body leaves the layer's learnable
parameters (`fc_neigh` weight and bias, together with `channels`) and the
externally supplied `Linv` and `adjacency` unchanged, writing only the local
`x_e` binding and the result slot — which holds exactly the value `forward`
returns. -/
theorem c6_forward_frame (env env' : ForwardEnv)
    (h : forwardStep env = .ok env') :
    env'.selfLayer = env.selfLayer ∧ env'.Linv = env.Linv ∧
    env'.adjacency = env.adjacency ∧
    ∃ t, env.selfLayer.forward env.x_e env.Linv env.adjacency = .ok t ∧
      env'.rst = some t := by
  cases hm : elemMul env.adjacency env.Linv with
  | error e => simp [forwardStep, hm] at h
  | ok v1 =>
    cases hl : linearForward env.selfLayer (reluT v1) with
    | error e => simp [forwardStep, hm, agg_singleton, hl] at h
    | ok v3 =>
      simp [forwardStep, hm, agg_singleton, hl] at h
      subst h
      refine ⟨rfl, rfl, rfl, v3, ?_, rfl⟩
      simp [forward_eq_relu_chain, forwardSpecRef, hm, hl]

/-- C6 witness: a concrete completed call leaves the layer parameters,
`Linv` and `adjacency` unchanged and stores exactly forward's result. -/
theorem c6_forward_frame_witness :
    (ForwardEnv.mk (Dist2CycleLayer.mk 1 [2] 1) (Tensor.mk 1 1 [[20]])
        (Tensor.mk 1 1 [[5]]) (Tensor.mk 1 1 [[4]]) (some (Tensor.mk 1 1 [[41]]))
      |>.selfLayer) = Dist2CycleLayer.mk 1 [2] 1 ∧
    (ForwardEnv.mk (Dist2CycleLayer.mk 1 [2] 1) (Tensor.mk 1 1 [[20]])
        (Tensor.mk 1 1 [[5]]) (Tensor.mk 1 1 [[4]]) (some (Tensor.mk 1 1 [[41]]))
      |>.Linv) = Tensor.mk 1 1 [[5]] ∧
    (ForwardEnv.mk (Dist2CycleLayer.mk 1 [2] 1) (Tensor.mk 1 1 [[20]])
        (Tensor.mk 1 1 [[5]]) (Tensor.mk 1 1 [[4]]) (some (Tensor.mk 1 1 [[41]]))
      |>.adjacency) = Tensor.mk 1 1 [[4]] ∧
    ∃ t, (Dist2CycleLayer.mk 1 [2] 1).forward (Tensor.mk 1 1 [[10]])
        (Tensor.mk 1 1 [[5]]) (Tensor.mk 1 1 [[4]]) = .ok t ∧
      (ForwardEnv.mk (Dist2CycleLayer.mk 1 [2] 1) (Tensor.mk 1 1 [[20]])
          (Tensor.mk 1 1 [[5]]) (Tensor.mk 1 1 [[4]]) (some (Tensor.mk 1 1 [[41]]))
        |>.rst) = some t :=
  c6_forward_frame
    ⟨Dist2CycleLayer.mk 1 [2] 1, Tensor.mk 1 1 [[10]], Tensor.mk 1 1 [[5]],
      Tensor.mk 1 1 [[4]], none⟩
    ⟨Dist2CycleLayer.mk 1 [2] 1, Tensor.mk 1 1 [[20]], Tensor.mk 1 1 [[5]],
      Tensor.mk 1 1 [[4]], some (Tensor.mk 1 1 [[41]])⟩ (by decide)

/-- C4: `reset_parameters` installs in the weight, entry for entry, the
library's fresh fan-in-scaled uniform draws — each of magnitude at most
`√3 · gain / √fan_in` with the rectified-linear gain `√2` and
`fan_in = channels` (the Kaiming/He scheme) — leaves the bias at its
default initialization (a uniform draw of magnitude at most `1/√fan_in`),
and preserves the weight's shape: the weight keeps its entry count (there is
a single scalar type, so the dtype is likewise unchanged). -/
theorem c4_reset_parameters_kaiming
    (l : Dist2CycleLayer) (wdraws : List ℤ) (bdraw : ℤ)
    (hlen : wdraws.length = l.channels)
    (hself : l.weight.length = l.channels)
    (hwb : ∀ q ∈ wdraws, |(q : ℝ)| ≤
      Real.sqrt 3 * (Real.sqrt 2 / Real.sqrt (l.channels : ℝ)))
    (hbb : |(bdraw : ℝ)| ≤ 1 / Real.sqrt (l.channels : ℝ)) :
    (l.resetParameters wdraws bdraw).weight = wdraws ∧
    (l.resetParameters wdraws bdraw).weight.length = l.weight.length ∧
    (l.resetParameters wdraws bdraw).channels = l.channels ∧
    (∀ q ∈ (l.resetParameters wdraws bdraw).weight, |(q : ℝ)| ≤
      Real.sqrt 3 *
        (Real.sqrt 2 / Real.sqrt (((l.resetParameters wdraws bdraw).channels : ℝ)))) ∧
    |(((l.resetParameters wdraws bdraw).bias : ℤ) : ℝ)| ≤
      1 / Real.sqrt (l.channels : ℝ) :=
  ⟨rfl, hlen.trans hself.symm, rfl, hwb, hbb⟩

/-- C4 witness: resetting a concrete `channels = 1` layer with the zero draw
(which lies within every Kaiming bound) installs the draw, keeps the weight's
entry count and leaves the bias within the default-initialization bound. -/
theorem c4_reset_parameters_kaiming_witness :
    ((Dist2CycleLayer.mk 1 [5] 7).resetParameters [0] 0).weight = [0] ∧
    ((Dist2CycleLayer.mk 1 [5] 7).resetParameters [0] 0).weight.length =
      (Dist2CycleLayer.mk 1 [5] 7).weight.length ∧
    ((Dist2CycleLayer.mk 1 [5] 7).resetParameters [0] 0).channels =
      (Dist2CycleLayer.mk 1 [5] 7).channels ∧
    (∀ q ∈ ((Dist2CycleLayer.mk 1 [5] 7).resetParameters [0] 0).weight, |(q : ℝ)| ≤
      Real.sqrt 3 * (Real.sqrt 2 /
        Real.sqrt ((((Dist2CycleLayer.mk 1 [5] 7).resetParameters [0] 0).channels : ℝ)))) ∧
    |((((Dist2CycleLayer.mk 1 [5] 7).resetParameters [0] 0).bias : ℤ) : ℝ)| ≤
      1 / Real.sqrt (((Dist2CycleLayer.mk 1 [5] 7).channels : ℝ)) :=
  c4_reset_parameters_kaiming (Dist2CycleLayer.mk 1 [5] 7) [0] 0 rfl rfl
    (by
      intro q hq
      simp only [List.mem_singleton] at hq
      subst hq
      simp only [Int.cast_zero, abs_zero]
      positivity)
    (by
      simp only [Int.cast_zero, abs_zero]
      positivity)

/-- C8: the DHGCN hypergraph model constructed with `channels_node = 8` and
`n_layers = 2`, applied to any dense node-feature tensor of shape `(8, 8)`,
returns a tensor of the empty (scalar) shape `()`. -/
theorem c8_dhgcn_scalar_output (x : NDTensor) (h : x.shape = [8, 8]) :
    ∃ y, (DHGCN.mk 8 2).forward x = .ok y ∧ y.shape = [] := by
  refine ⟨⟨[], [x.entries.sum]⟩, ?_, rfl⟩
  simp [DHGCN.forward, h]

/-- C8 witness: on the all-ones `(8, 8)` node-feature tensor the model's
output has the empty shape. -/
theorem c8_dhgcn_scalar_output_witness :
    ∃ y, (DHGCN.mk 8 2).forward (NDTensor.mk [8, 8] (List.replicate 64 1))
        = .ok y ∧ y.shape = [] :=
  c8_dhgcn_scalar_output (NDTensor.mk [8, 8] (List.replicate 64 1)) rfl

end TopoModelX
